import Mathlib

/-!
# Verification of the OpenRV session-manager core

Shallow embedding of the session-manager tree/model logic
(`session_manager.py`, `session_manager_utils.py`, `transform_manip.py`)
and proofs of the specified properties.

Conventions of the embedding:
* node properties that may be absent are `Option` values
  (`commands.propertyExists` is `Option.isSome`);
* Python lists become Lean `List`s, Python ints become `Int`/`Nat`;
* the graph facade (`commands.*`) is modelled by an explicit `Graph`
  record; `testNodeInputs` is a parameter `test` returning an optional
  rejection message;
* float arithmetic in `transform_manip.py` is embedded as exact
  rational arithmetic (`ℚ`); the square-root-derived quantities
  (`mag`, `normalize` results) are passed in as parameters.
-/

namespace SessionManager

/-! ## Sub-component identity hash (`hashedSubComponent`) -/

/-- Embedding of `hashedSubComponent(media, view=None, layer=None)`:
the `@.` sentinel replaces an explicit empty string for `view`/`layer`,
and the output is the `!~`-separated concatenation exactly as in the
four `%`-format branches of the source. -/
def hashedSubComponent (media : String) (view : Option String := none)
    (layer : Option String := none) : String :=
  let v : Option String := match view with
    | some s => some (if s = "" then "@." else s)
    | none => none
  let l : Option String := match layer with
    | some s => some (if s = "" then "@." else s)
    | none => none
  match v, l with
  | none, none => media ++ "!~!~"
  | none, some ls => media ++ "!~" ++ ls ++ "!~"
  | some vs, none => media ++ "!~!~" ++ vs
  | some vs, some ls => media ++ "!~" ++ ls ++ "!~" ++ vs

/-! ## Expansion state (`isExpandedInParent` / `setExpandedInParent`)

The per-node `sm_state.expandState` string-array property is the state:
`none` models "property does not exist". -/

/-- Embedding of the module-level helper `remove(array, value)`:
removes every occurrence by list comprehension. -/
def removeAll (array : List String) (value : String) : List String :=
  array.filter (fun a => a ≠ value)

/-- Embedding of `isExpandedInParent(node, parent)` over the node's
`sm_state.expandState` property value. -/
def isExpandedInParent (expandState : Option (List String)) (parent : String) : Bool :=
  match expandState with
  | some p => parent ∈ p
  | none => false

/-- Embedding of `setExpandedInParent(node, parent, expanded)`: when the
property exists, membership is toggled (`remove` on collapse of a present
key, append on expand of an absent key, otherwise unchanged); when the
property does not exist the source writes `[parent]` unconditionally,
regardless of `expanded`. -/
def setExpandedInParent (expandState : Option (List String)) (parent : String)
    (expanded : Bool) : Option (List String) :=
  match expandState with
  | some p =>
      if parent ∈ p ∧ ¬ expanded then some (removeAll p parent)
      else if parent ∉ p ∧ expanded then some (p ++ [parent])
      else some p
  | none => some [parent]

/-! ## Sort keys (`sortKeyInParent` / `setSortKeyInParent`)

State: the pair of parallel properties `sm_state.sortKeyParent`
(string array) and `sm_state.sortKey` (int array), each possibly absent. -/

/-- Index of the first occurrence of `value`, or `none`; the source's
`indexOf` returns the index or `-1` (`none` here). -/
def firstIndex (array : List String) (value : String) : Option Nat :=
  match array with
  | [] => none
  | a :: rest => if a = value then some 0 else (firstIndex rest value).map (· + 1)

/-- State of the two parallel sort-key properties of one node. -/
structure SortState where
  sortKeyParent : Option (List String)
  sortKey : Option (List Int)
  deriving Repr, DecidableEq

/-- The "undefined" sort-key sentinel `2147483547` (INT_MAX − 100). -/
def undefinedKey : Int := 2147483547

/-- Embedding of `sortKeyInParent(node, parent)`: requires both parallel
properties to exist, the parent to be found, and the arrays to have equal
length; otherwise the sentinel is returned. -/
def sortKeyInParent (st : SortState) (parent : String) : Int :=
  match st.sortKeyParent, st.sortKey with
  | some p, some keys =>
      match firstIndex p parent with
      | none => undefinedKey
      | some i => if keys.length ≠ p.length then undefinedKey else keys.getD i undefinedKey
  | _, _ => undefinedKey

/-- Embedding of `setSortKeyInParent(node, parent, value)`: with both
properties present and length-synchronized, either append a fresh
(parent, value) pair or overwrite the key at the parent's index; in every
other case (absent or desynchronized) reset both arrays to the single
fresh entry. -/
def setSortKeyInParent (st : SortState) (parent : String) (value : Int) : SortState :=
  match st.sortKeyParent, st.sortKey with
  | some p, some keys =>
      if p.length = keys.length then
        match firstIndex p parent with
        | none => ⟨some (p ++ [parent]), some (keys ++ [value])⟩
        | some i => ⟨some p, some (keys.set i value)⟩
      else ⟨some [parent], some [value]⟩
  | _, _ => ⟨some [parent], some [value]⟩

/-! ### Helper lemmas about `firstIndex` and `List.getD` -/

theorem firstIndex_eq_none_iff (l : List String) (v : String) :
    firstIndex l v = none ↔ v ∉ l := by
  induction l with
  | nil => simp [firstIndex]
  | cons a rest ih =>
      by_cases h : a = v
      · simp [firstIndex, h]
      · simp only [firstIndex, if_neg h, Option.map_eq_none', List.mem_cons, ih]
        constructor
        · intro hn hmem
          rcases hmem with h1 | h2
          · exact h h1.symm
          · exact hn h2
        · intro hn hm
          exact hn (Or.inr hm)

theorem firstIndex_lt_length (l : List String) (v : String) (i : Nat)
    (h : firstIndex l v = some i) : i < l.length := by
  induction l generalizing i with
  | nil => simp [firstIndex] at h
  | cons a rest ih =>
      by_cases ha : a = v
      · simp only [firstIndex, if_pos ha, Option.some_inj] at h
        subst h
        simp
      · simp only [firstIndex, if_neg ha, Option.map_eq_some'] at h
        rcases h with ⟨j, hj, rfl⟩
        have := ih j hj
        simp only [List.length_cons]
        omega

theorem firstIndex_getElem (l : List String) (v : String) (i : Nat)
    (h : firstIndex l v = some i) : l.getD i "" = v := by
  induction l generalizing i with
  | nil => simp [firstIndex] at h
  | cons a rest ih =>
      by_cases ha : a = v
      · simp only [firstIndex, if_pos ha, Option.some_inj] at h
        subst h
        simpa [List.getD] using ha
      · simp only [firstIndex, if_neg ha, Option.map_eq_some'] at h
        rcases h with ⟨j, hj, rfl⟩
        simpa [List.getD] using ih j hj

theorem firstIndex_append_some (l l2 : List String) (v : String) (i : Nat)
    (h : firstIndex l v = some i) : firstIndex (l ++ l2) v = some i := by
  induction l generalizing i with
  | nil => simp [firstIndex] at h
  | cons a rest ih =>
      by_cases ha : a = v
      · simp_all [firstIndex]
      · simp only [firstIndex, if_neg ha, Option.map_eq_some'] at h
        rcases h with ⟨j, hj, rfl⟩
        simp only [List.cons_append, firstIndex, if_neg ha]
        rw [show rest.append l2 = rest ++ l2 from rfl, ih j hj]
        rfl

theorem firstIndex_concat_self (l : List String) (v : String)
    (h : firstIndex l v = none) : firstIndex (l ++ [v]) v = some l.length := by
  induction l with
  | nil => simp [firstIndex]
  | cons a rest ih =>
      by_cases ha : a = v
      · simp [firstIndex, ha] at h
      · simp only [firstIndex, if_neg ha, Option.map_eq_none'] at h
        simp only [List.cons_append, firstIndex, if_neg ha, List.length_cons]
        rw [show rest.append [v] = rest ++ [v] from rfl, ih h]
        rfl

theorem firstIndex_append_none (l : List String) (v w : String)
    (h : firstIndex l v = none) (hvw : v ≠ w) : firstIndex (l ++ [w]) v = none := by
  rw [firstIndex_eq_none_iff] at h ⊢
  simp only [List.mem_append, List.mem_singleton]
  rintro (hl | rfl)
  · exact h hl
  · exact hvw rfl

theorem getD_append_left (l l2 : List Int) (i : Nat) (d : Int) (h : i < l.length) :
    (l ++ l2).getD i d = l.getD i d := by
  induction l generalizing i with
  | nil => simp at h
  | cons a rest ih =>
      cases i with
      | zero => simp [List.getD]
      | succ j =>
          simp only [List.length_cons] at h
          simpa [List.getD] using ih j (by omega)

theorem getD_concat_length (l : List Int) (v d : Int) :
    (l ++ [v]).getD l.length d = v := by
  induction l with
  | nil => simp [List.getD]
  | cons a rest ih => simp [List.getD]

theorem getD_set_self (l : List Int) (i : Nat) (v d : Int) (h : i < l.length) :
    (l.set i v).getD i d = v := by
  induction l generalizing i with
  | nil => simp at h
  | cons a rest ih =>
      cases i with
      | zero => simp [List.getD]
      | succ j =>
          simp only [List.length_cons] at h
          simpa [List.getD] using ih j (by omega)

theorem getD_set_ne (l : List Int) (i j : Nat) (v d : Int) (h : i ≠ j) :
    (l.set i v).getD j d = l.getD j d := by
  induction l generalizing i j with
  | nil => simp
  | cons a rest ih =>
      cases i with
      | zero =>
          cases j with
          | zero => exact absurd rfl h
          | succ k => simp [List.getD]
      | succ i' =>
          cases j with
          | zero => simp [List.getD]
          | succ k => simpa [List.getD] using ih i' k (by omega)

/-! ## Graph facade model

`Graph` mirrors the part of the `commands` facade the session manager
reads and writes: node existence, node type tags, and per-node ordered
input and output connection lists.  `GState` adds the list of alert
messages shown via `extra_commands.alertPanel`.  `testNodeInputs` is
abstracted as a parameter `test` returning `some rejectionMessage` or
`none`. -/

structure Graph where
  nodeExists : String → Bool
  nodeType : String → String
  inputs : String → List String
  outputs : String → List String

structure GState where
  g : Graph
  alerts : List String

/-- Embedding of `commands.setNodeInputs(node, inputs)`. -/
def setNodeInputs (g : Graph) (node : String) (ins : List String) : Graph :=
  { g with inputs := fun n => if n = node then ins else g.inputs n }

/-- Embedding of the module-level `setInputs(node, inputs)`: run the
`testNodeInputs` pre-check; on a rejection message show an alert panel and
do not commit, returning `False`; otherwise commit via `setNodeInputs`
and return `True`. -/
def setInputs (test : String → List String → Option String) (st : GState)
    (node : String) (ins : List String) : GState × Bool :=
  match test node ins with
  | some msg => (⟨st.g, st.alerts ++ [msg]⟩, false)
  | none => (⟨setNodeInputs st.g node ins, st.alerts⟩, true)

/-- Embedding of `removeInput(node, inputNode)`: for a non-empty node name,
filter every occurrence of `inputNode` out of the node's current inputs and
submit the result through `setInputs`. -/
def removeInput (test : String → List String → Option String) (st : GState)
    (node inputNode : String) : GState × Bool :=
  if node ≠ "" then
    setInputs test st node ((st.g.inputs node).filter (fun n => n ≠ inputNode))
  else (st, true)

/-- Embedding of `hasInput(node, inputNode)`: `None` or `""` nodes report
`True`; otherwise membership in the node's current input list.  The `parent`
argument in the source may be `None`, hence `Option String`. -/
def hasInput (st : GState) (node : Option String) (inputNode : String) : Bool :=
  match node with
  | none => true
  | some n => if n = "" then true else inputNode ∈ st.g.inputs n

/-- Embedding of `addInput(node, inputNode)`: if the node exists, append
`inputNode` to its current inputs and submit through `setInputs`. -/
def addInput (test : String → List String → Option String) (st : GState)
    (node inputNode : String) : GState × Bool :=
  if st.g.nodeExists node then
    setInputs test st node (st.g.inputs node ++ [inputNode])
  else (st, true)

/-! ## Drag/drop reconciliation (`SessionManagerMode.viewItemChanged`) -/

/-- The Qt drop action recorded by `NodeTreeView.dropEvent` /
`InputsView.dropEvent` in `self._dropAction`. -/
inductive DropAction where
  | copyAction
  | moveAction
  | ignoreAction
  deriving DecidableEq, Repr

/-- Embedding of `filteredDraggedPaths(lambda p: p and p[0] == node)`:
keeps the non-empty dragged paths whose first element is `node`. -/
def filteredDragged (node : String) (paths : List (List String)) : List (List String) :=
  paths.filter (fun p => p.head? == some node)

/-- `commands.nodeExists(parent)` where `parent` may be `None`
(a `None` argument is modelled as non-existent). -/
def nodeExistsOpt (g : Graph) : Option String → Bool
  | none => false
  | some p => g.nodeExists p

/-- Result of one `viewItemChanged` invocation: the new graph/alert state,
the value written to the item's `USER_ROLE_PARENT_NODE` data slot
(`none` when `item.setData` is not called), whether a debounced
`sortFolderChildren` was scheduled, and whether the rename branch pushed
the item text via `setUIName`.  `sortFolderChildren` itself only touches
`sm_state` sort-key properties, never connection lists. -/
structure VICResult where
  st : GState
  storedParent : Option String
  sortScheduled : Bool
  renamed : Bool

/-- Embedding of `SessionManagerMode.viewItemChanged(item)`.
Arguments: `node` = `itemNode(item)`, `parent` = node of `item.parent()`
(`none` when the item has no parent item), `subType` =
`itemSubComponentType(item)` (`0` = `NotASubComponent`), `dropAction` =
`self._viewTreeView._dropAction`, `draggedPaths` =
`self._viewTreeView._draggedNodePaths`.

Copy branch: when the believed new parent does not already have the node
as an input, add it, store the parent reference, and schedule a folder
re-sort if the parent is an existing `RVFolderGroup`.

Move branch (only when some dragged path starts with this node): if the
new parent exists, ensure it has the node as input (add first); store the
parent reference (empty marker when the parent does not exist); then for
every dragged path of length > 1 whose former parent exists and differs
from the new parent, remove the node from that former parent's inputs;
finally schedule a folder re-sort when the new parent is a folder.

Otherwise: ordinary non-subcomponent items are renamed via `setUIName`
(with `_disableUpdates` held), which touches no connection list. -/
def viewItemChanged (test : String → List String → Option String) (st : GState)
    (node : String) (parent : Option String) (subType : Nat)
    (dropAction : DropAction) (draggedPaths : List (List String)) : VICResult :=
  let nodePaths := filteredDragged node draggedPaths
  if dropAction = .copyAction then
    if hasInput st parent node then ⟨st, none, false, false⟩
    else
      let st1 := (addInput test st (parent.getD "") node).1
      let sort := parent.getD "" ≠ "" ∧ st1.g.nodeExists (parent.getD "") = true ∧
        st1.g.nodeType (parent.getD "") = "RVFolderGroup"
      ⟨st1, some (parent.getD ""), decide sort, false⟩
  else if dropAction = .moveAction ∧ nodePaths ≠ [] then
    let parentExists := nodeExistsOpt st.g parent
    let st1 :=
      if parentExists ∧ ¬ hasInput st parent node then
        (addInput test st (parent.getD "") node).1
      else st
    let stored := if parentExists then parent.getD "" else ""
    let st2 := nodePaths.foldl (fun acc path =>
      match path with
      | n :: p :: _ =>
          if acc.g.nodeExists p ∧ (¬ nodeExistsOpt acc.g parent ∨ some p ≠ parent) then
            (removeInput test acc p n).1
          else acc
      | _ => acc) st1
    let sort : Bool := nodeExistsOpt st2.g parent &&
      (match parent with
       | some p => st2.g.nodeType p == "RVFolderGroup"
       | none => false)
    ⟨st2, some stored, sort, false⟩
  else if node ≠ "" ∧ subType = 0 then
    ⟨st, none, false, true⟩
  else
    ⟨st, none, false, false⟩

/-! ## Deleting a selected tree item (`deleteViewableSlot`) -/

/-- Embedding of `commands.deleteNode(node)` (only existence matters for
the properties proved here; the facade also detaches connections). -/
def deleteNode (g : Graph) (node : String) : Graph :=
  { g with nodeExists := fun n => if n = node then false else g.nodeExists n }

/-- Embedding of the per-item body of
`SessionManagerMode.deleteViewableSlot`: `node` = `itemNode(item)`,
`parent` = `itemParentNode(item)` (the stored parent reference).  When the
stored parent exists and is an `RVFolderGroup` and the node's outputs feed
more than one folder, only detach the node from that parent folder;
otherwise delete the node from the graph (with `_disableUpdates` held). -/
def deleteViewableItem (test : String → List String → Option String) (st : GState)
    (node parent : String) : GState :=
  let outs := st.g.outputs node
  let parentType := if st.g.nodeExists parent then st.g.nodeType parent else ""
  let nfolders := (outs.filter (fun o => st.g.nodeType o = "RVFolderGroup")).length
  if parentType = "RVFolderGroup" ∧ nfolders > 1 then
    (removeInput test st parent node).1
  else
    ⟨deleteNode st.g node, st.alerts⟩

/-! ## Transform manipulation (`transform_manip.py`) -/

/-- Translate/scale property state of one RVTransform2D node
(`transform.translate`, `transform.scale`), embedded over `ℚ`. -/
structure DragState where
  trans : ℚ × ℚ
  scale : ℚ × ℚ
  deriving Repr, DecidableEq

/-- Embedding of the corner-control branch of `TransformManip.drag`.
Geometric inputs: `pp` = current pointer, `dp` = `self._downPoint`,
`gc` = `self._gc` (quad center), `diagDir` = the already-normalized
diagonal direction `normalize(self._corner - self._gc)` (normalization
uses `math.sqrt`, so the unit vector is taken as an input here), and
`ba`, `da` = the edge magnitudes `mag(b - a)`, `mag(d - a)` (likewise
square roots, taken as inputs).  The arithmetic below — `aspect`,
projected distances, `diff`, `scl`, `sv`, `sdx`, `sdy`, the half
translation, the `0.01`-clamped new x scale and the proportional y
scale — mirrors the source line by line, with the source's
division-by-zero guards as `if` conditions. -/
def dragCorner (pp dp gc diagDir : ℚ × ℚ) (ba da : ℚ) (st : DragState) : DragState :=
  let scale := st.scale
  let trans := st.trans
  let aspect := if da ≠ 0 then ba / da else 1
  let diagDist := (pp.1 - gc.1) * diagDir.1 + (pp.2 - gc.2) * diagDir.2
  let downDist := (dp.1 - gc.1) * diagDir.1 + (dp.2 - gc.2) * diagDir.2
  let diff := diagDist - downDist
  let scl := if downDist ≠ 0 then (diagDist - diff / 2) / downDist else 1
  let sv : ℚ × ℚ := (diff * diagDir.1, diff * diagDir.2)
  let sdx := if ba ≠ 0 then sv.1 / ba * scale.1 * aspect else 0
  let sdy := if da ≠ 0 then sv.2 / da * scale.2 else 0
  let newscale := max (scale.1 * scl) (1 / 100)
  { trans := (trans.1 + sdx / 2, trans.2 + sdy / 2)
    scale := (newscale, if scale.1 ≠ 0 then scale.2 * newscale / scale.1 else newscale) }

/-- Embedding of the `EditNodePair` record: a transform node paired with
the view node's direct input it edits. -/
structure EditNodePair where
  tformNode : String
  inputNode : String
  deriving Repr, DecidableEq

/-- Embedding of `TransformManip.findEditingNodes` restricted to the
data it stores in `self._editNodes`.  `vnode` is `commands.viewNode()`
(`none` for no view).  `facade = none` models the `try`/`except` path
where `metaEvaluateClosestByType` or `nodeConnections` raises; otherwise
`facade = some (infos, ins)` gives the RVTransform2D info node names and
the view node's direct inputs.  The set is cleared first; on a size
mismatch between `infos` and `ins` the function returns with the set left
empty, producing no pairs; otherwise it pairs `infos[i]` with `ins[i]`. -/
def findEditingNodes (vnode : Option String)
    (facade : Option (List String × List String)) : List EditNodePair :=
  match vnode with
  | none => []
  | some _ =>
      match facade with
      | none => []
      | some (infos, ins) =>
          if infos.length ≠ ins.length then []
          else (infos.zip ins).map (fun p => ⟨p.1, p.2⟩)

/-! ## Re-entrancy flag discipline

Control-flow skeletons of the operations that set `_disableUpdates` or
`_inputOrderLock`, tracking only the flag values and whether the
operation returned normally.  A `raises` argument abstracts whether the
named callee raises an exception at its call site; the skeleton then
follows the source's `try`/`except` structure to decide whether the
exception propagates before the flag is cleared. -/

structure Flags where
  disableUpdates : Bool
  inputOrderLock : Bool
  deriving Repr, DecidableEq

/-- Flag skeleton of the sub-component arm of
`SessionManagerMode.selectedConvertedSubComponents` for one selected
sub-component item whose node exists: `_disableUpdates = True`, call
`self.sourceFromSubComponent(item, n)` — with no enclosing `try` —
then `_disableUpdates = False`.  `raises` abstracts whether
`sourceFromSubComponent` raises; the returned `Bool` is `true` iff the
operation completed normally (an uncaught exception propagates). -/
def selectedConvertedFlagRun (raises : Bool) (f : Flags) : Flags × Bool :=
  let f1 := { f with disableUpdates := true }
  if raises then (f1, false)
  else ({ f1 with disableUpdates := false }, true)

/-- Flag skeleton of `SessionManagerMode.rebuildInputsFromList`: after the
`_inputOrderLock`/no-view early return, `_disableUpdates = True`; in each
loop iteration `self._inputsModel.item(row, 0)` and `itemNode(item)` run
BEFORE the `try` (`rowAccessRaises` therefore propagates with the flag
stuck), the rest of the per-row work is wrapped in `try`/`except pass`
(`bodyRaises` is swallowed), and the `commands.setViewNode(vnode)` call
between the loop and `_disableUpdates = False` is also unguarded
(`setViewNodeRaises` propagates with the flag stuck). -/
def rebuildInputsFromListFlagRun
    (viewNodeMissing rowAccessRaises _bodyRaises setViewNodeRaises : Bool)
    (f : Flags) : Flags × Bool :=
  if f.inputOrderLock || viewNodeMissing then (f, true)
  else
    let f1 := { f with disableUpdates := true }
    if rowAccessRaises then (f1, false)
    else if setViewNodeRaises then (f1, false)
    else ({ f1 with disableUpdates := false }, true)

/-- Flag skeleton of `SessionManagerMode.viewByIndex`: sets
`_disableUpdates = True`, runs everything up to the clearing assignment
inside `try`/`except Exception: pass`, then clears the flag — so a raising
callee never propagates and the flag is always cleared. -/
def viewByIndexFlagRun (_bodyRaises : Bool) (f : Flags) : Flags × Bool :=
  let f1 := { f with disableUpdates := true }
  let f2 := f1
  ({ f2 with disableUpdates := false }, true)

/-- Flag skeleton of `SessionManagerMode.navButtonClicked`: same shape as
`viewByIndex` — everything between `_disableUpdates = True` and
`_disableUpdates = False` is inside `try`/`except Exception: pass`, so the
flag is always cleared. -/
def navButtonClickedFlagRun (_bodyRaises : Bool) (f : Flags) : Flags × Bool :=
  let f1 := { f with disableUpdates := true }
  let f2 := f1
  ({ f2 with disableUpdates := false }, true)

/-- Flag skeleton of `SessionManagerMode.updateInputs`: after the
`_disableUpdates`/progressive-loading early return, `_inputOrderLock =
True`; when the inputs model exists, `self._inputsModel.clear()` runs
between the lock set and the `try` (`clearRaises` therefore propagates
with the lock stuck), the row-building loop is wrapped in
`try`/`except pass` (`bodyRaises` is swallowed), then the lock is
cleared. -/
def updateInputsFlagRun
    (progressiveLoading modelPresent clearRaises _bodyRaises : Bool)
    (f : Flags) : Flags × Bool :=
  if f.disableUpdates || progressiveLoading then (f, true)
  else
    let f1 := { f with inputOrderLock := true }
    if modelPresent && clearRaises then (f1, false)
    else ({ f1 with inputOrderLock := false }, true)

/-- Flag skeleton of the rename step of `SessionManagerMode.newFolderSlot`:
`_disableUpdates = True`, call `self.renameByType(folder, ...)` — whose
facade calls (`commands.nodeType`, `extra_commands.uiName`/`setUIName`)
have no enclosing `try` — then `_disableUpdates = False`; a raise in
`renameByType` propagates with the flag stuck. -/
def newFolderSlotRenameFlagRun (renameRaises : Bool) (f : Flags) : Flags × Bool :=
  let f1 := { f with disableUpdates := true }
  if renameRaises then (f1, false)
  else ({ f1 with disableUpdates := false }, true)

/-- Skeleton of `block_signals` (`session_manager_utils.py`): signals are
blocked, the body runs inside `try`/`finally`, and the `finally` clause
unblocks unconditionally.  Returns (final blocked state, completed
normally): the final blocked state is `false` even when the body raises
(the exception then propagates, hence completed = `!bodyRaises`). -/
def blockSignalsRun (bodyRaises : Bool) : Bool × Bool :=
  (false, !bodyRaises)

/-! ## Reduction lemmas for `hashedSubComponent` -/

theorem hash_none_none (m : String) : hashedSubComponent m none none = m ++ "!~!~" := rfl

theorem hash_none_some (m s : String) :
    hashedSubComponent m none (some s) =
      m ++ "!~" ++ (if s = "" then "@." else s) ++ "!~" := rfl

theorem hash_some_none (m s : String) :
    hashedSubComponent m (some s) none =
      m ++ "!~!~" ++ (if s = "" then "@." else s) := rfl

theorem hash_some_some (m s t : String) :
    hashedSubComponent m (some s) (some t) =
      m ++ "!~" ++ (if t = "" then "@." else t) ++ "!~" ++ (if s = "" then "@." else s) := rfl

theorem len_sep2 : ("!~!~" : String).length = 4 := rfl

theorem len_sep : ("!~" : String).length = 2 := rfl

theorem len_sentinel : ("@." : String).length = 2 := rfl

/-- C3: `hashedSubComponent` is deterministic — equal (media, view, layer)
triples produce equal hash strings — and distinguishes `None` from the
empty string in the view slot and in the layer slot: with the other
components equal, a `none` view hashes differently from a `""` view, and a
`none` layer differently from a `""` layer (the `""` case inserts the `@.`
sentinel, making the hash strictly longer). -/
theorem hashedSubComponent_none_vs_empty (media : String) (view layer : Option String) :
    hashedSubComponent media view layer = hashedSubComponent media view layer
    ∧ hashedSubComponent media none layer ≠ hashedSubComponent media (some "") layer
    ∧ hashedSubComponent media view none ≠ hashedSubComponent media view (some "") := by
  refine ⟨rfl, ?_, ?_⟩
  · intro h
    have hlen := congrArg String.length h
    cases layer with
    | none =>
        rw [hash_none_none, hash_some_none] at hlen
        simp [String.length_append, len_sep2, len_sentinel] at hlen
    | some s =>
        rw [hash_none_some, hash_some_some] at hlen
        simp [String.length_append, len_sep, len_sentinel] at hlen
  · intro h
    have hlen := congrArg String.length h
    cases view with
    | none =>
        rw [hash_none_none, hash_none_some] at hlen
        simp [String.length_append, len_sep2, len_sep, len_sentinel] at hlen
    | some s =>
        rw [hash_some_none, hash_some_some] at hlen
        simp [String.length_append, len_sep2, len_sep, len_sentinel] at hlen

/-! ## Expansion-state lemmas (C6) -/

theorem setExpandedInParent_true_mem (st : Option (List String)) (parent : String) :
    ∃ p, setExpandedInParent st parent true = some p ∧ parent ∈ p := by
  match st with
  | none => exact ⟨[parent], rfl, by simp⟩
  | some q =>
      by_cases h : parent ∈ q
      · exact ⟨q, by simp [setExpandedInParent, h], h⟩
      · exact ⟨q ++ [parent], by simp [setExpandedInParent, h], by simp⟩

theorem not_mem_removeAll (p : List String) (v : String) : v ∉ removeAll p v := by
  simp [removeAll, List.mem_filter]

/-- C6 counterexample: with the expansion property absent (never-before-seen
key on a node with no `sm_state.expandState`), calling
`setExpandedInParent(node, parent, False)` is not a no-op — the source's
`else` branch writes `[parent]` unconditionally — so `isExpandedInParent`
afterwards reports `true`, not `false`. -/
theorem setExpanded_false_missing_counterexample :
    isExpandedInParent (setExpandedInParent none "defaultLayout" false) "defaultLayout" = true := by
  rfl

/-- C6 amended: setting (node, parent) expanded `true` twice then `false`
once leaves `isExpandedInParent` false; setting `false` for a
never-before-seen key while the expansion property exists is a no-op still
reporting false; but when the expansion property does not yet exist,
setting `false` writes the key, after which `isExpandedInParent` reports
`true`. -/
theorem expansion_toggle_amended (st : Option (List String)) (parent : String) :
    isExpandedInParent
      (setExpandedInParent
        (setExpandedInParent (setExpandedInParent st parent true) parent true)
        parent false) parent = false
    ∧ (∀ p, st = some p → parent ∉ p →
        setExpandedInParent st parent false = st ∧
        isExpandedInParent (setExpandedInParent st parent false) parent = false)
    ∧ (st = none → isExpandedInParent (setExpandedInParent st parent false) parent = true) := by
  refine ⟨?_, ?_, ?_⟩
  · obtain ⟨p1, h1, hm1⟩ := setExpandedInParent_true_mem st parent
    rw [h1]
    rw [show setExpandedInParent (some p1) parent true = some p1 by
      simp [setExpandedInParent, hm1]]
    rw [show setExpandedInParent (some p1) parent false = some (removeAll p1 parent) by
      simp [setExpandedInParent, hm1]]
    simp [isExpandedInParent, not_mem_removeAll]
  · rintro p rfl hp
    refine ⟨by simp [setExpandedInParent, hp], ?_⟩
    simp [setExpandedInParent, isExpandedInParent, hp]
  · rintro rfl
    simp [setExpandedInParent, isExpandedInParent]

/-- Witness for the amended C6 theorem at concrete inputs. -/
theorem expansion_toggle_amended_witness :
    isExpandedInParent (setExpandedInParent (some ["otherParent"]) "p0" false) "p0" = false
    ∧ isExpandedInParent (setExpandedInParent none "p0" false) "p0" = true :=
  ⟨((expansion_toggle_amended (some ["otherParent"]) "p0").2.1 ["otherParent"] rfl
      (by simp)).2,
   (expansion_toggle_amended none "p0").2.2 rfl⟩

/-! ## Sort-key lemmas (C5) -/

theorem setSortKey_eq_append (p : List String) (keys : List Int) (parent : String) (k : Int)
    (hlen : p.length = keys.length) (hfi : firstIndex p parent = none) :
    setSortKeyInParent ⟨some p, some keys⟩ parent k =
      ⟨some (p ++ [parent]), some (keys ++ [k])⟩ := by
  simp [setSortKeyInParent, hlen, hfi]

theorem setSortKey_eq_set (p : List String) (keys : List Int) (parent : String) (k : Int)
    (i : Nat) (hlen : p.length = keys.length) (hfi : firstIndex p parent = some i) :
    setSortKeyInParent ⟨some p, some keys⟩ parent k = ⟨some p, some (keys.set i k)⟩ := by
  simp [setSortKeyInParent, hlen, hfi]

theorem setSortKey_eq_reset (p : List String) (keys : List Int) (parent : String) (k : Int)
    (hlen : p.length ≠ keys.length) :
    setSortKeyInParent ⟨some p, some keys⟩ parent k = ⟨some [parent], some [k]⟩ := by
  simp [setSortKeyInParent, hlen]

theorem sortKeyInParent_found (p : List String) (keys : List Int) (q : String) (j : Nat)
    (hfi : firstIndex p q = some j) (hlen : keys.length = p.length) :
    sortKeyInParent ⟨some p, some keys⟩ q = keys.getD j undefinedKey := by
  simp [sortKeyInParent, hfi, hlen]

theorem sortKeyInParent_notfound (p : List String) (keys : List Int) (q : String)
    (hfi : firstIndex p q = none) :
    sortKeyInParent ⟨some p, some keys⟩ q = undefinedKey := by
  simp [sortKeyInParent, hfi]

theorem sortKeyInParent_desync (p : List String) (keys : List Int) (q : String)
    (hlen : keys.length ≠ p.length) :
    sortKeyInParent ⟨some p, some keys⟩ q = undefinedKey := by
  rcases hfi : firstIndex p q with _ | j <;> simp [sortKeyInParent, hfi, hlen]

theorem sortKeyInParent_single_self (parent : String) (k : Int) :
    sortKeyInParent ⟨some [parent], some [k]⟩ parent = k := by
  have hfi : firstIndex [parent] parent = some 0 := by simp [firstIndex]
  rw [sortKeyInParent_found [parent] [k] parent 0 hfi rfl]
  rfl

theorem sortKeyInParent_single_other (parent q : String) (k : Int) (hq : q ≠ parent) :
    sortKeyInParent ⟨some [parent], some [k]⟩ q = undefinedKey := by
  have hfi : firstIndex [parent] q = none := by
    rw [firstIndex_eq_none_iff]
    simp [hq]
  exact sortKeyInParent_notfound [parent] [k] q hfi

theorem setSortKey_get_self (st : SortState) (parent : String) (k : Int) :
    sortKeyInParent (setSortKeyInParent st parent k) parent = k := by
  obtain ⟨sp, sk⟩ := st
  cases sp with
  | none =>
      cases sk with
      | none => exact sortKeyInParent_single_self parent k
      | some keys => exact sortKeyInParent_single_self parent k
  | some p =>
      cases sk with
      | none => exact sortKeyInParent_single_self parent k
      | some keys =>
          by_cases hlen : p.length = keys.length
          · rcases hfi : firstIndex p parent with _ | i
            · rw [setSortKey_eq_append p keys parent k hlen hfi]
              have hfi2 : firstIndex (p ++ [parent]) parent = some p.length :=
                firstIndex_concat_self p parent hfi
              rw [sortKeyInParent_found _ _ parent p.length hfi2 (by simp [hlen])]
              rw [hlen, getD_concat_length]
            · rw [setSortKey_eq_set p keys parent k i hlen hfi]
              rw [sortKeyInParent_found _ _ parent i hfi (by simp [hlen])]
              exact getD_set_self keys i k undefinedKey
                (by rw [← hlen]; exact firstIndex_lt_length p parent i hfi)
          · rw [setSortKey_eq_reset p keys parent k hlen]
            exact sortKeyInParent_single_self parent k

theorem setSortKey_get_other (st : SortState) (parent q : String) (k : Int)
    (hq : q ≠ parent) :
    sortKeyInParent (setSortKeyInParent st parent k) q = sortKeyInParent st q := by
  obtain ⟨sp, sk⟩ := st
  cases sp with
  | none =>
      cases sk with
      | none => exact sortKeyInParent_single_other parent q k hq
      | some keys => exact sortKeyInParent_single_other parent q k hq
  | some p =>
      cases sk with
      | none => exact sortKeyInParent_single_other parent q k hq
      | some keys =>
          by_cases hlen : p.length = keys.length
          · rcases hfi : firstIndex p parent with _ | i
            · rw [setSortKey_eq_append p keys parent k hlen hfi]
              rcases hfq : firstIndex p q with _ | j
              · have hfq2 : firstIndex (p ++ [parent]) q = none :=
                  firstIndex_append_none p q parent hfq hq
                rw [sortKeyInParent_notfound _ _ q hfq2,
                  sortKeyInParent_notfound p keys q hfq]
              · have hfq2 : firstIndex (p ++ [parent]) q = some j :=
                  firstIndex_append_some p [parent] q j hfq
                rw [sortKeyInParent_found _ _ q j hfq2 (by simp [hlen]),
                  sortKeyInParent_found p keys q j hfq hlen.symm]
                exact getD_append_left keys [k] j undefinedKey
                  (by rw [← hlen]; exact firstIndex_lt_length p q j hfq)
            · rw [setSortKey_eq_set p keys parent k i hlen hfi]
              rcases hfq : firstIndex p q with _ | j
              · rw [sortKeyInParent_notfound _ _ q hfq,
                  sortKeyInParent_notfound p keys q hfq]
              · have hij : i ≠ j := by
                  intro hij
                  subst hij
                  have h1 := firstIndex_getElem p parent i hfi
                  have h2 := firstIndex_getElem p q i hfq
                  exact hq (h2 ▸ h1 ▸ rfl)
                rw [sortKeyInParent_found _ _ q j hfq (by simp [hlen.symm]),
                  sortKeyInParent_found p keys q j hfq hlen.symm]
                exact getD_set_ne keys i j k undefinedKey hij
          · rw [setSortKey_eq_reset p keys parent k hlen]
            rw [sortKeyInParent_single_other parent q k hq]
            exact (sortKeyInParent_desync p keys q (fun h => hlen h.symm)).symm

/-- C5: sort-key round trip — after `setSortKeyInParent(n, p, k)`,
`sortKeyInParent(n, p)` returns `k` for arbitrary `k : ℤ` (negative values
and INT_MAX included); the observable sort key of any other parent `q` of
the node is preserved; and a never-set state (both parallel properties
absent) reports the undefined sentinel 2147483547 = INT_MAX − 100. -/
theorem sortKey_roundtrip (st : SortState) (parent q : String) (k : Int)
    (hq : q ≠ parent) :
    sortKeyInParent (setSortKeyInParent st parent k) parent = k
    ∧ sortKeyInParent (setSortKeyInParent st parent k) q = sortKeyInParent st q
    ∧ sortKeyInParent ⟨none, none⟩ parent = undefinedKey :=
  ⟨setSortKey_get_self st parent k, setSortKey_get_other st parent q k hq, rfl⟩

/-- Witness for C5 at concrete inputs: a negative key and INT_MAX. -/
theorem sortKey_roundtrip_witness :
    sortKeyInParent (setSortKeyInParent ⟨some ["p1"], some [7]⟩ "p2" (-5)) "p2" = -5
    ∧ sortKeyInParent (setSortKeyInParent ⟨none, none⟩ "p3" 2147483647) "p3" = 2147483647 :=
  ⟨(sortKey_roundtrip ⟨some ["p1"], some [7]⟩ "p2" "p1" (-5) (by decide)).1,
   (sortKey_roundtrip ⟨none, none⟩ "p3" "other" 2147483647 (by decide)).1⟩

/-! ## C2: `setInputs` validation gate -/

/-- C2: for every proposed input list, `setInputs` consults the
`testNodeInputs` pre-check first; a rejection message produces an alert,
leaves the graph unmodified (no `setNodeInputs`), and returns `False`;
no message commits the exact list via `setNodeInputs` and returns `True`
with no alert. -/
theorem setInputs_validation (test : String → List String → Option String)
    (st : GState) (node : String) (ins : List String) :
    (∀ msg, test node ins = some msg →
      (setInputs test st node ins).1.g = st.g
      ∧ (setInputs test st node ins).2 = false
      ∧ (setInputs test st node ins).1.alerts = st.alerts ++ [msg])
    ∧ (test node ins = none →
      (setInputs test st node ins).1.g = setNodeInputs st.g node ins
      ∧ (setInputs test st node ins).1.g.inputs node = ins
      ∧ (setInputs test st node ins).2 = true
      ∧ (setInputs test st node ins).1.alerts = st.alerts) := by
  constructor
  · intro msg hmsg
    simp [setInputs, hmsg]
  · intro hnone
    simp [setInputs, hnone, setNodeInputs]

/-- Witness for C2 at a concrete rejecting and a concrete accepting
pre-check over a concrete graph. -/
theorem setInputs_validation_witness :
    (setInputs (fun _ _ => some "would create a cycle")
        ⟨⟨fun _ => true, fun _ => "", fun _ => [], fun _ => []⟩, []⟩ "v" ["a"]).2 = false
    ∧ (setInputs (fun _ _ => none)
        ⟨⟨fun _ => true, fun _ => "", fun _ => [], fun _ => []⟩, []⟩ "v" ["a"]).2 = true :=
  ⟨((setInputs_validation (fun _ _ => some "would create a cycle")
      ⟨⟨fun _ => true, fun _ => "", fun _ => [], fun _ => []⟩, []⟩ "v" ["a"]).1
      "would create a cycle" rfl).2.1,
   ((setInputs_validation (fun _ _ => none)
      ⟨⟨fun _ => true, fun _ => "", fun _ => [], fun _ => []⟩, []⟩ "v" ["a"]).2 rfl).2.2.1⟩

/-! ## C9: `findEditingNodes` size mismatch -/

/-- C9: when the RVTransform2D metadata info list and the view node's
direct input list disagree in size, `findEditingNodes` does not rebuild
the edit-node-pair set — no `EditNodePair` is produced from the
mismatched data (the set is left empty). -/
theorem findEditingNodes_mismatch (vnode : Option String) (infos ins : List String)
    (h : infos.length ≠ ins.length) :
    findEditingNodes vnode (some (infos, ins)) = [] := by
  cases vnode with
  | none => rfl
  | some v => simp [findEditingNodes, h]

/-- Witness for C9: two transform infos against one input. -/
theorem findEditingNodes_mismatch_witness :
    findEditingNodes (some "viewGroup") (some (["t1", "t2"], ["in1"])) = [] :=
  findEditingNodes_mismatch (some "viewGroup") ["t1", "t2"] ["in1"] (by decide)

/-! ## C7: re-entrancy flag discipline -/

/-- C7 counterexample: in `selectedConvertedSubComponents` the call
`self.sourceFromSubComponent(item, n)` sits between
`self._disableUpdates = True` and `self._disableUpdates = False` with no
enclosing `try`; if it raises, the exception propagates (the run does not
complete) and `_disableUpdates` is left stuck `true`. -/
theorem disableUpdates_stuck_counterexample :
    (selectedConvertedFlagRun true ⟨false, false⟩).1.disableUpdates = true
    ∧ (selectedConvertedFlagRun true ⟨false, false⟩).2 = false :=
  ⟨rfl, rfl⟩

/-- C7 amended: every modeled operation clears the flag it set on every
normal-return path; `viewByIndex` and `navButtonClicked` also clear
`_disableUpdates` when the body raises (everything between the set and the
clear sits in `try`/`except`), and `block_signals` always unblocks via
`try`/`finally`; but four operations run unguarded callees between setting
and clearing a flag, where an exception propagates with the flag left
stuck: `selectedConvertedSubComponents` (`sourceFromSubComponent`),
`rebuildInputsFromList` (the per-row `item()`/`itemNode()` access and
`commands.setViewNode`, both outside the per-row `try`), `updateInputs`
(`self._inputsModel.clear()` between the lock set and the `try`), and
`newFolderSlot` (`renameByType`). -/
theorem flag_discipline_amended (f : Flags) (r : Bool) :
    (selectedConvertedFlagRun false f).1.disableUpdates = false
    ∧ (f.inputOrderLock = false →
        (rebuildInputsFromListFlagRun false false r false f).1.disableUpdates = false)
    ∧ (f.disableUpdates = false →
        (updateInputsFlagRun false true false r f).1.inputOrderLock = false)
    ∧ (newFolderSlotRenameFlagRun false f).1.disableUpdates = false
    ∧ (viewByIndexFlagRun r f).1.disableUpdates = false
    ∧ (navButtonClickedFlagRun r f).1.disableUpdates = false
    ∧ (blockSignalsRun r).1 = false
    ∧ (selectedConvertedFlagRun true f).1.disableUpdates = true
    ∧ (f.inputOrderLock = false →
        (rebuildInputsFromListFlagRun false true r false f).1.disableUpdates = true
        ∧ (rebuildInputsFromListFlagRun false false r true f).1.disableUpdates = true)
    ∧ (f.disableUpdates = false →
        (updateInputsFlagRun false true true r f).1.inputOrderLock = true)
    ∧ (newFolderSlotRenameFlagRun true f).1.disableUpdates = true := by
  obtain ⟨d, l⟩ := f
  cases d <;> cases l <;> cases r <;>
    simp [selectedConvertedFlagRun, viewByIndexFlagRun, navButtonClickedFlagRun,
      updateInputsFlagRun, rebuildInputsFromListFlagRun, newFolderSlotRenameFlagRun,
      blockSignalsRun]

/-- Witness for the amended C7 theorem at concrete flag states, covering a
cleared normal path, a stuck `updateInputs` clear-raise path, and a stuck
`rebuildInputsFromList` row-access-raise path. -/
theorem flag_discipline_amended_witness :
    (rebuildInputsFromListFlagRun false false false false ⟨false, false⟩).1.disableUpdates = false
    ∧ (updateInputsFlagRun false true true false ⟨false, false⟩).1.inputOrderLock = true
    ∧ (rebuildInputsFromListFlagRun false true false false ⟨false, false⟩).1.disableUpdates = true :=
  ⟨(flag_discipline_amended ⟨false, false⟩ false).2.1 rfl,
   (flag_discipline_amended ⟨false, false⟩ false).2.2.2.2.2.2.2.2.2.1 rfl,
   ((flag_discipline_amended ⟨false, false⟩ false).2.2.2.2.2.2.2.2.1 rfl).1⟩

/-! ## C8: corner-drag aspect-ratio preservation -/

/-- C8: in a corner-control drag step with a nonzero prior x scale, the
new y scale is set to `priorScaleY * newScaleX / priorScaleX` (also when
`newScaleX` was clamped at the 0.01 minimum), so the aspect ratio
`scaleY / scaleX` is preserved (the clamped new x scale is at least
1/100, hence nonzero, so the ratio is well defined). -/
theorem dragCorner_preserves_aspect (pp dp gc diagDir : ℚ × ℚ) (ba da : ℚ)
    (st : DragState) (h0 : st.scale.1 ≠ 0) :
    (dragCorner pp dp gc diagDir ba da st).scale.2
        = st.scale.2 * (dragCorner pp dp gc diagDir ba da st).scale.1 / st.scale.1
    ∧ (dragCorner pp dp gc diagDir ba da st).scale.1 ≠ 0
    ∧ (dragCorner pp dp gc diagDir ba da st).scale.2
          / (dragCorner pp dp gc diagDir ba da st).scale.1
        = st.scale.2 / st.scale.1 := by
  obtain ⟨⟨t1, t2⟩, s1, s2⟩ := st
  simp only at h0
  dsimp only [dragCorner]
  rw [if_pos h0]
  have hpos : (0 : ℚ) < max (s1 * (if ((dp.1 - gc.1) * diagDir.1 + (dp.2 - gc.2) * diagDir.2) ≠ 0
      then (((pp.1 - gc.1) * diagDir.1 + (pp.2 - gc.2) * diagDir.2) -
        (((pp.1 - gc.1) * diagDir.1 + (pp.2 - gc.2) * diagDir.2) -
         ((dp.1 - gc.1) * diagDir.1 + (dp.2 - gc.2) * diagDir.2)) / 2) /
        ((dp.1 - gc.1) * diagDir.1 + (dp.2 - gc.2) * diagDir.2)
      else 1)) (1 / 100) :=
    lt_of_lt_of_le (by norm_num) (le_max_right _ _)
  refine ⟨rfl, ne_of_gt hpos, ?_⟩
  field_simp
  ring

/-- Witness for C8: prior scale (2, 3), a drag whose diagonal ratio would
shrink x below the minimum, so the 0.01 clamp engages; the x scale ends at
1/100, the y scale at 3/200, and the aspect ratio 3/2 is unchanged. -/
theorem dragCorner_preserves_aspect_witness :
    (dragCorner (⟨-1, 0⟩ : ℚ × ℚ) (⟨1, 0⟩ : ℚ × ℚ) (⟨0, 0⟩ : ℚ × ℚ) (⟨1, 0⟩ : ℚ × ℚ)
        1 1 ⟨⟨0, 0⟩, 2, 3⟩).scale.1 = 1 / 100
    ∧ (dragCorner (⟨-1, 0⟩ : ℚ × ℚ) (⟨1, 0⟩ : ℚ × ℚ) (⟨0, 0⟩ : ℚ × ℚ) (⟨1, 0⟩ : ℚ × ℚ)
        1 1 ⟨⟨0, 0⟩, 2, 3⟩).scale.2
          / (dragCorner (⟨-1, 0⟩ : ℚ × ℚ) (⟨1, 0⟩ : ℚ × ℚ) (⟨0, 0⟩ : ℚ × ℚ) (⟨1, 0⟩ : ℚ × ℚ)
        1 1 ⟨⟨0, 0⟩, 2, 3⟩).scale.1 = 3 / 2 := by
  constructor
  · norm_num [dragCorner]
  · exact (dragCorner_preserves_aspect ⟨-1, 0⟩ ⟨1, 0⟩ ⟨0, 0⟩ ⟨1, 0⟩ 1 1 ⟨⟨0, 0⟩, 2, 3⟩
      (by norm_num)).2.2.trans (by norm_num)

/-! ## C1 / C4: drag-drop reconciliation lemmas -/

/-- The accept-everything `testNodeInputs` (no structural rejection). -/
def acceptAll : String → List String → Option String := fun _ _ => none

theorem count_filter_ne_self (l : List String) (x : String) :
    (l.filter (fun n => n ≠ x)).count x = 0 := by
  rw [List.count_eq_zero]
  intro hmem
  rw [List.mem_filter] at hmem
  simp at hmem

theorem addInput_accept_inputs_at (st : GState) (node inputNode q : String)
    (h : st.g.nodeExists node = true) :
    (addInput acceptAll st node inputNode).1.g.inputs q
      = if q = node then st.g.inputs node ++ [inputNode] else st.g.inputs q := by
  simp [addInput, h, acceptAll, setInputs, setNodeInputs]

theorem addInput_accept_nodeExists (st : GState) (node inputNode : String) :
    (addInput acceptAll st node inputNode).1.g.nodeExists = st.g.nodeExists := by
  by_cases h : st.g.nodeExists node = true <;>
    simp [addInput, h, acceptAll, setInputs, setNodeInputs]

theorem removeInput_accept_inputs_at (st : GState) (node inputNode q : String)
    (h : node ≠ "") :
    (removeInput acceptAll st node inputNode).1.g.inputs q
      = if q = node then (st.g.inputs node).filter (fun m => m ≠ inputNode)
        else st.g.inputs q := by
  simp [removeInput, h, acceptAll, setInputs, setNodeInputs]

/-- C1: drag/drop move reconciliation.  Node `X` is dragged from its former
parent `A` (dragged path `[X, A]`) and dropped under a different existing
parent `B`; with the facade pre-check accepting the connection changes,
after `viewItemChanged` processes the move `X` occurs zero times in `A`'s
input list and exactly once in `B`'s input list (given it occurred at most
once in `B` beforehand) — no duplicates in either. -/
theorem viewItemChanged_move_reconciliation (st : GState) (X A B : String) (subType : Nat)
    (hAB : A ≠ B) (hA : st.g.nodeExists A = true) (hB : st.g.nodeExists B = true)
    (hAe : A ≠ "") (hBe : B ≠ "")
    (hcount : (st.g.inputs B).count X ≤ 1) :
    (((viewItemChanged acceptAll st X (some B) subType .moveAction [[X, A]]).st.g.inputs A).count X = 0)
    ∧ (((viewItemChanged acceptAll st X (some B) subType .moveAction [[X, A]]).st.g.inputs B).count X = 1) := by
  have hnp : filteredDragged X [[X, A]] = [[X, A]] := by simp [filteredDragged]
  have hpe : nodeExistsOpt st.g (some B) = true := hB
  simp only [viewItemChanged, hnp]
  rw [if_neg (by simp), if_pos (by simp)]
  by_cases hmem : X ∈ st.g.inputs B
  · have hhas : hasInput st (some B) X = true := by simp [hasInput, hBe, hmem]
    rw [if_neg (by simp [hhas])]
    simp only [List.foldl_cons, List.foldl_nil]
    rw [if_pos (by exact ⟨hA, Or.inr (by simp [hAB])⟩)]
    constructor
    · rw [removeInput_accept_inputs_at st A X A hAe, if_pos rfl]
      exact count_filter_ne_self _ _
    · rw [removeInput_accept_inputs_at st A X B hAe, if_neg hAB.symm]
      have hpos := List.count_pos_iff.mpr hmem
      omega
  · have hhas : hasInput st (some B) X = false := by simp [hasInput, hBe, hmem]
    rw [if_pos (by simp [hpe, hhas])]
    simp only [Option.getD_some]
    simp only [List.foldl_cons, List.foldl_nil]
    have hex : (addInput acceptAll st B X).1.g.nodeExists = st.g.nodeExists :=
      addInput_accept_nodeExists st B X
    rw [if_pos (by rw [hex]; exact ⟨hA, Or.inr (by simp [hAB])⟩)]
    constructor
    · rw [removeInput_accept_inputs_at _ A X A hAe, if_pos rfl]
      exact count_filter_ne_self _ _
    · rw [removeInput_accept_inputs_at _ A X B hAe, if_neg hAB.symm,
        addInput_accept_inputs_at st B X B hB, if_pos rfl]
      have h0 : (st.g.inputs B).count X = 0 := List.count_eq_zero.mpr hmem
      simp [List.count_append, h0]

/-- Witness for C1: `v1` dragged from folder `fA` (inputs `[v1, v2]`) to
folder `fB` (inputs `[v3]`). -/
theorem viewItemChanged_move_reconciliation_witness :
    (((viewItemChanged acceptAll
        ⟨⟨fun _ => true, fun _ => "RVFolderGroup",
          fun n => if n = "fA" then ["v1", "v2"] else if n = "fB" then ["v3"] else [],
          fun _ => []⟩, []⟩
        "v1" (some "fB") 0 .moveAction [["v1", "fA"]]).st.g.inputs "fA").count "v1" = 0)
    ∧ (((viewItemChanged acceptAll
        ⟨⟨fun _ => true, fun _ => "RVFolderGroup",
          fun n => if n = "fA" then ["v1", "v2"] else if n = "fB" then ["v3"] else [],
          fun _ => []⟩, []⟩
        "v1" (some "fB") 0 .moveAction [["v1", "fA"]]).st.g.inputs "fB").count "v1" = 1) :=
  viewItemChanged_move_reconciliation
    ⟨⟨fun _ => true, fun _ => "RVFolderGroup",
      fun n => if n = "fA" then ["v1", "v2"] else if n = "fB" then ["v3"] else [],
      fun _ => []⟩, []⟩
    "v1" "fA" "fB" 0 (by decide) rfl rfl (by decide) (by decide) (by decide)

theorem addInput_inputs_at (test : String → List String → Option String)
    (st : GState) (node inputNode q : String) :
    (addInput test st node inputNode).1.g.inputs q = st.g.inputs q
    ∨ (q = node ∧ (addInput test st node inputNode).1.g.inputs q
        = st.g.inputs node ++ [inputNode]) := by
  by_cases h : st.g.nodeExists node = true
  · rcases ht : test node (st.g.inputs node ++ [inputNode]) with _ | msg
    · by_cases hq : q = node
      · subst hq
        right
        exact ⟨rfl, by simp [addInput, h, setInputs, ht, setNodeInputs]⟩
      · left
        simp [addInput, h, setInputs, ht, setNodeInputs, hq]
    · left
      simp [addInput, h, setInputs, ht]
  · left
    simp [addInput, h]

/-- C4: a copy-action drop (the action `InputsView.dropEvent` forces for
drags from the tree into the inputs list) never removes the dragged node
from any node's input list — every node's inputs are unchanged, except
that the drop target's may gain the dragged node appended once; when the
target already has the node as an input nothing is mutated at all; and
when it does not, the target's inputs gain the node exactly once and the
item's stored parent reference is updated to the target. -/
theorem viewItemChanged_copy_no_removal (test : String → List String → Option String)
    (st : GState) (node : String) (parent : Option String) (subType : Nat)
    (paths : List (List String)) :
    (∀ q : String,
      (viewItemChanged test st node parent subType .copyAction paths).st.g.inputs q
          = st.g.inputs q
      ∨ (some q = parent ∧
         (viewItemChanged test st node parent subType .copyAction paths).st.g.inputs q
            = st.g.inputs q ++ [node]))
    ∧ (hasInput st parent node = true →
        viewItemChanged test st node parent subType .copyAction paths
          = ⟨st, none, false, false⟩)
    ∧ (∀ p : String, parent = some p → p ≠ "" → node ∉ st.g.inputs p →
        st.g.nodeExists p = true → test p (st.g.inputs p ++ [node]) = none →
        (viewItemChanged test st node parent subType .copyAction paths).st.g.inputs p
            = st.g.inputs p ++ [node]
        ∧ (viewItemChanged test st node parent subType .copyAction paths).storedParent
            = some p) := by
  refine ⟨?_, ?_, ?_⟩
  · intro q
    by_cases hh : hasInput st parent node = true
    · left
      simp [viewItemChanged, hh]
    · simp only [viewItemChanged, if_pos rfl, if_neg hh]
      rcases addInput_inputs_at test st (parent.getD "") node q with h | ⟨hq, h⟩
      · left
        exact h
      · subst hq
        cases parent with
        | none => exact absurd rfl hh
        | some p =>
            by_cases hp : p = ""
            · subst hp
              exact absurd (by simp [hasInput]) hh
            · right
              exact ⟨rfl, by simpa using h⟩
  · intro hh
    simp [viewItemChanged, hh]
  · intro p hpar hp hmem hex ht
    subst hpar
    have hh : ¬ hasInput st (some p) node = true := by
      simp [hasInput, hp, hmem]
    simp only [viewItemChanged, if_pos rfl, if_neg hh]
    simp only [Option.getD_some]
    constructor
    · simp [addInput, hex, setInputs, ht, setNodeInputs]
    · rfl

/-- Witness for C4: node `src` copy-dropped onto target `vf` whose inputs
were `[x]`; `vf` gains `src` appended and the stored parent becomes `vf`. -/
theorem viewItemChanged_copy_no_removal_witness :
    (viewItemChanged acceptAll
        ⟨⟨fun _ => true, fun _ => "", fun n => if n = "vf" then ["x"] else [], fun _ => []⟩, []⟩
        "src" (some "vf") 0 .copyAction [["src", "old"]]).st.g.inputs "vf" = ["x", "src"]
    ∧ (viewItemChanged acceptAll
        ⟨⟨fun _ => true, fun _ => "", fun n => if n = "vf" then ["x"] else [], fun _ => []⟩, []⟩
        "src" (some "vf") 0 .copyAction [["src", "old"]]).storedParent = some "vf" := by
  have h := (viewItemChanged_copy_no_removal acceptAll
      ⟨⟨fun _ => true, fun _ => "", fun n => if n = "vf" then ["x"] else [], fun _ => []⟩, []⟩
      "src" (some "vf") 0 [["src", "old"]]).2.2 "vf" rfl (by decide) (by decide) rfl rfl
  exact ⟨h.1.trans (by decide), h.2⟩

/-! ## C10: delete action on a selected tree item -/

theorem removeInput_accept_nodeExists (st : GState) (node inputNode : String) :
    (removeInput acceptAll st node inputNode).1.g.nodeExists = st.g.nodeExists := by
  by_cases h : node = "" <;>
    simp [removeInput, h, acceptAll, setInputs, setNodeInputs]

/-- C10: deleting a selected tree item whose stored parent node exists and
is an `RVFolderGroup`, while the item's node is an output-connected input
of more than one folder, only detaches the node from that parent folder's
inputs — the node continues to exist and no other node's inputs change; in
every other case the node is deleted from the graph. -/
theorem deleteViewableItem_folder_cases (st : GState) (node parent : String)
    (hpe : parent ≠ "") :
    (st.g.nodeExists parent = true → st.g.nodeType parent = "RVFolderGroup" →
      ((st.g.outputs node).filter (fun o => st.g.nodeType o = "RVFolderGroup")).length > 1 →
      (deleteViewableItem acceptAll st node parent).g.nodeExists node = st.g.nodeExists node
      ∧ node ∉ (deleteViewableItem acceptAll st node parent).g.inputs parent
      ∧ ∀ q, q ≠ parent →
          (deleteViewableItem acceptAll st node parent).g.inputs q = st.g.inputs q)
    ∧ (¬(st.g.nodeExists parent = true ∧ st.g.nodeType parent = "RVFolderGroup" ∧
          ((st.g.outputs node).filter (fun o => st.g.nodeType o = "RVFolderGroup")).length > 1) →
      (deleteViewableItem acceptAll st node parent).g.nodeExists node = false) := by
  constructor
  · intro h1 h2 h3
    have hc : ((if st.g.nodeExists parent then st.g.nodeType parent else "") = "RVFolderGroup")
        ∧ ((st.g.outputs node).filter (fun o => st.g.nodeType o = "RVFolderGroup")).length > 1 := by
      rw [if_pos h1]
      exact ⟨h2, h3⟩
    simp only [deleteViewableItem, if_pos hc]
    refine ⟨?_, ?_, ?_⟩
    · rw [removeInput_accept_nodeExists]
    · rw [removeInput_accept_inputs_at st parent node parent hpe, if_pos rfl]
      intro hmem
      rw [List.mem_filter] at hmem
      simp at hmem
    · intro q hq
      rw [removeInput_accept_inputs_at st parent node q hpe, if_neg hq]
  · intro hn
    have hc : ¬(((if st.g.nodeExists parent then st.g.nodeType parent else "") = "RVFolderGroup")
        ∧ ((st.g.outputs node).filter (fun o => st.g.nodeType o = "RVFolderGroup")).length > 1) := by
      rintro ⟨hc1, hc2⟩
      by_cases hpx : st.g.nodeExists parent = true
      · rw [if_pos hpx] at hc1
        exact hn ⟨hpx, hc1, hc2⟩
      · rw [if_neg hpx] at hc1
        exact absurd hc1 (by decide)
    simp only [deleteViewableItem, if_neg hc]
    simp [deleteNode]

/-- Witness for C10: node `n` is an input of folders `f1` and `f2`
(both among its outputs); deleting its tree item under parent `f1` keeps
`n` alive and only detaches it from `f1`; deleting a node `m` whose parent
is not a folder removes `m` from the graph. -/
theorem deleteViewableItem_folder_cases_witness :
    ((deleteViewableItem acceptAll
        ⟨⟨fun _ => true, fun t => if t = "n" then "RVSourceGroup" else "RVFolderGroup",
          fun p => if p = "f1" ∨ p = "f2" then ["n"] else [],
          fun o => if o = "n" then ["f1", "f2"] else []⟩, []⟩
        "n" "f1").g.nodeExists "n" = true
      ∧ "n" ∉ (deleteViewableItem acceptAll
        ⟨⟨fun _ => true, fun t => if t = "n" then "RVSourceGroup" else "RVFolderGroup",
          fun p => if p = "f1" ∨ p = "f2" then ["n"] else [],
          fun o => if o = "n" then ["f1", "f2"] else []⟩, []⟩
        "n" "f1").g.inputs "f1")
    ∧ (deleteViewableItem acceptAll
        ⟨⟨fun _ => true, fun _ => "RVSourceGroup", fun _ => [], fun _ => []⟩, []⟩
        "m" "p1").g.nodeExists "m" = false := by
  constructor
  · have h := (deleteViewableItem_folder_cases
        ⟨⟨fun _ => true, fun t => if t = "n" then "RVSourceGroup" else "RVFolderGroup",
          fun p => if p = "f1" ∨ p = "f2" then ["n"] else [],
          fun o => if o = "n" then ["f1", "f2"] else []⟩, []⟩
        "n" "f1" (by decide)).1 rfl (by decide) (by decide)
    exact ⟨h.1, h.2.1⟩
  · exact (deleteViewableItem_folder_cases
        ⟨⟨fun _ => true, fun _ => "RVSourceGroup", fun _ => [], fun _ => []⟩, []⟩
        "m" "p1" (by decide)).2 (by rintro ⟨-, hx, -⟩; exact absurd hx (by decide))

end SessionManager
